import Mathlib

/-!
Shallow embedding of the Slack channel-resolution and notification-preference
code of this repository (src/sentry/integrations/slack/utils.py and
src/sentry/notifications/manager.py).

The network environment is made explicit: each list type ("conversations",
"users") is mapped to the sequence of fetch outcomes the remote service
would deliver, one per page fetch, and the wall clock is a function from
the index of the time.time() call to the reading it returns (call 0 is the
reading taken when the deadline time_to_quit is computed; call k, for
k >= 1, is the reading taken after the k-th page has been scanned).
-/

set_option autoImplicit false

namespace SlackUtils

/-- An item of a Slack list response. `profile` models the optional
`profile` dict flattened to its optional `display_name` entry: it is
`some (some s)` when the item has a profile whose display_name is `s`,
`some none` when a profile exists but carries no display_name, and `none`
when the item has no profile (a missing or empty profile dict behaves the
same as one without a display_name for the match below, since Python
`None == name` is false for a string `name`). -/
structure SlackItem where
  name : String
  id : String
  profile : Option (Option String)
deriving DecidableEq, Repr

/-- The display name of an item, when its profile carries one: models
`c.get("profile")` followed by `profile.get("display_name")`. -/
def dnOf (c : SlackItem) : Option String :=
  c.profile.bind (fun p => p)

/-- Python `str.lower()`, character by character (`convert to lower
case since all names in Slack are lowercase`). Defined over the list of
characters so that it evaluates by kernel reduction. -/
def lower (s : String) : String :=
  ⟨s.data.map Char.toLower⟩

/-- One page fetch outcome of `client.get("/<list_type>.list", ...)`:
either the call raised `ApiError`, or it returned the list of items under
the result key together with `response_metadata.next_cursor` (absent or
empty both mean the end of the list). -/
inductive FetchOutcome where
  | apiError
  | ok (items : List SlackItem) (nextCursor : Option String)
deriving DecidableEq, Repr

/-- The items of a page, empty for a failed fetch. -/
def pageItems : FetchOutcome → List SlackItem
  | FetchOutcome.apiError => []
  | FetchOutcome.ok items _ => items

/-- Python truthiness of the `next_cursor` value: `if not cursor: break`
treats both a missing cursor and the empty string as the end. -/
def cursorTruthy : Option String → Bool
  | none => false
  | some s => s != ""

/-- The result tuple of `get_channel_id_with_timeout`:
(prefix string, optional channel id, timed_out flag). -/
abbrev ResTuple := String × Option String × Bool

/-- The `id_data` loop variable: `None`, or a recorded candidate tuple. -/
abbrev IdData := Option ResTuple

def MEMBER_PFX : String := "@"

def CHANNEL_PFX : String := "#"

/-- `"".join([MEMBER_PREFIX, CHANNEL_PREFIX])`. -/
def strip_channel_chars : String := MEMBER_PFX ++ CHANNEL_PFX

def SLACK_DEFAULT_TIMEOUT : Nat := 10

/-- The fixed ordered list of (list_name, result_name, list prefix)
triples: conversations are always searched before users. -/
def LIST_TYPES : List (String × String × String) :=
  [("conversations", "channels", CHANNEL_PFX), ("users", "members", MEMBER_PFX)]

/-- `name.lstrip(strip_channel_chars)`: drop every leading character that
belongs to the strip set. -/
def strip_channel_name (name : String) : String :=
  ⟨name.data.dropWhile (fun ch => decide (ch ∈ strip_channel_chars.data))⟩

/-- The `for c in items[result_name]` loop body of
`get_channel_id_with_timeout`, for one page of items. A case-insensitive
exact name match returns `(prefix, c["id"], False)` immediately
(`Sum.inl`); otherwise, for the users list type, an exact display-name
match records `id_data` or marks `found_duplicate`, and the scan goes on;
`Sum.inr` carries the updated `(id_data, found_duplicate)` state. -/
def scanItems (name : String) (isUsers : Bool) (pfx : String) :
    List SlackItem → IdData → Bool → Sum ResTuple (IdData × Bool)
  | [], idData, foundDup => Sum.inr (idData, foundDup)
  | c :: rest, idData, foundDup =>
    if lower c.name = lower name then
      Sum.inl (pfx, some c.id, false)
    else if isUsers = true ∧ dnOf c = some name then
      match idData with
      | some d => scanItems name isUsers pfx rest (some d) true
      | none => scanItems name isUsers pfx rest (some (pfx, some c.id, false)) foundDup
    else
      scanItems name isUsers pfx rest idData foundDup

/-- The `while True` pagination loop of `get_channel_id_with_timeout` for
one list type. `pages` is the remaining sequence of fetch outcomes the
environment delivers (running out of modelled pages ends the list type),
`calls` is the index of the next `time.time()` reading, and
`(idData, foundDup)` the loop state. `Sum.inl` is an early `return` from
inside the loop (transport error, exact match, or timeout); `Sum.inr` is
the `break` on a falsy cursor, carrying the updated call counter and
state. The order mirrors the source: fetch, scan the items (exact match
returns before anything else), then the time check, then the cursor
check. -/
def runListType (name : String) (isUsers : Bool) (pfx : String)
    (clock : Nat → Nat) (ttq : Nat) :
    List FetchOutcome → Nat → IdData → Bool → Sum ResTuple (Nat × IdData × Bool)
  | [], calls, idData, foundDup => Sum.inr (calls, idData, foundDup)
  | FetchOutcome.apiError :: _, _, _, _ => Sum.inl (pfx, none, false)
  | FetchOutcome.ok items cur :: rest, calls, idData, foundDup =>
    match scanItems name isUsers pfx items idData foundDup with
    | Sum.inl r => Sum.inl r
    | Sum.inr (idData', foundDup') =>
      if ttq < clock calls then Sum.inl (pfx, none, true)
      else if cursorTruthy cur then
        runListType name isUsers pfx clock ttq rest (calls + 1) idData' foundDup'
      else Sum.inr (calls + 1, idData', foundDup')

/-- The `for list_type, result_name, prefix in list_types` loop of
`get_channel_id_with_timeout`, threading the call counter and the
`(id_data, found_duplicate)` state across list types. After each list
type: `found_duplicate` raises `DuplicateDisplayNameError(name)` (the
`Except.error` case carries the name), else a recorded `id_data` is
returned. After the loop the fallback `(prefix, None, False)` uses the
prefix of the last list type iterated (`lastPfx`; the initial value is
never used since `LIST_TYPES` is nonempty, matching the Python loop
variable that would be unbound on an empty list). -/
def resolveLoop (name : String) (clock : Nat → Nat) (ttq : Nat)
    (env : String → List FetchOutcome) :
    List (String × String × String) → Nat → IdData → Bool → String →
    Except String ResTuple
  | [], _, _, _, lastPfx => Except.ok (lastPfx, none, false)
  | (listType, _resultName, pfx) :: restTypes, calls, idData, foundDup, _lastPfx =>
    match runListType name (listType == "users") pfx clock ttq (env listType)
        calls idData foundDup with
    | Sum.inl r => Except.ok r
    | Sum.inr (calls', idData', foundDup') =>
      if foundDup' then Except.error name
      else
        match idData' with
        | some r => Except.ok r
        | none => resolveLoop name clock ttq env restTypes calls' idData' foundDup' pfx

/-- `get_channel_id_with_timeout(integration, name, timeout)`, with the
network and the clock explicit. `time_to_quit = time.time() + timeout` is
`clock 0 + timeout`; the loop starts with call counter 1, `id_data = None`
and `found_duplicate = False`. An `Except.error n` models a raised
`DuplicateDisplayNameError(n)`. -/
def get_channel_id_with_timeout (name : String) (timeout : Nat)
    (clock : Nat → Nat) (env : String → List FetchOutcome) :
    Except String ResTuple :=
  resolveLoop name clock (clock 0 + timeout) env LIST_TYPES 1 none false ""

/-- `get_channel_id(organization, integration, name, use_async_lookup)`:
strips the name and picks the timeout (3 * 60 for the async job,
`SLACK_DEFAULT_TIMEOUT` otherwise) before delegating. -/
def get_channel_id (name : String) (use_async_lookup : Bool)
    (clock : Nat → Nat) (env : String → List FetchOutcome) :
    Except String ResTuple :=
  let name := strip_channel_name name
  let timeout := if use_async_lookup then 3 * 60 else SLACK_DEFAULT_TIMEOUT
  get_channel_id_with_timeout name timeout clock env

end SlackUtils

namespace NotificationsManager

structure Project where
  id : Nat
deriving DecidableEq, Repr

structure Organization where
  id : Nat
deriving DecidableEq, Repr

/-- The scope types used by `_get_scope` (`NotificationScopeType`). -/
inductive NotificationScopeType where
  | USER
  | ORGANIZATION
  | PROJECT
deriving DecidableEq, Repr

/-- `_get_scope(user_id, project, organization)`: project wins, then
organization, then a truthy user_id; with none of them it raises
(`Except.error` carries the exception message). `user_id` is an int in
the source, so Python truthiness makes the value 0 falsy, like `None`. -/
def _get_scope (user_id : Option Nat) (project : Option Project)
    (organization : Option Organization) :
    Except String (NotificationScopeType × Nat) :=
  match project with
  | some p => Except.ok (NotificationScopeType.PROJECT, p.id)
  | none =>
    match organization with
    | some o => Except.ok (NotificationScopeType.ORGANIZATION, o.id)
    | none =>
      match user_id with
      | some uid =>
        if uid ≠ 0 then Except.ok (NotificationScopeType.USER, uid)
        else Except.error "scope must be either user, organization, or project"
      | none => Except.error "scope must be either user, organization, or project"

/-- `_get_target(user, team)`: the user's actor wins, then the team's
actor; with neither it raises. Actors are modelled by their ids. -/
def _get_target (user : Option Nat) (team : Option Nat) : Except String Nat :=
  match user with
  | some a => Except.ok a
  | none =>
    match team with
    | some a => Except.ok a
    | none => Except.error "target must be either a user or a team"

end NotificationsManager

namespace SlackUtils

structure Integration where
  id : Nat
deriving DecidableEq, Repr

/-- What `send_incident_alert_notification` did, as an observable trace. -/
inductive SendOutcome where
  | integrationRemoved
  | posted
  | postFailed (err : String)
deriving DecidableEq, Repr

/-- `send_incident_alert_notification(action, incident, metric_value,
method)`, with its two failure sources explicit: `integration` is the
result of the `Integration.objects.get` lookup (`none` models
`Integration.DoesNotExist`, caught and turned into a silent return), and
`postError` the outcome of `client.post("/chat.postMessage", ...)`
(`some e` models a raised `ApiError e`, caught and logged). The
attachment build in between is pure (modelled from the spec:
`incident_attachment_info` is outside this repository's sources and the
spec treats the attachment builders as pure functions with no failure
mode). An `Except.error` would model an exception escaping to the
caller; none of the paths produces one. -/
def send_incident_alert_notification (integration : Option Integration)
    (postError : Option String) : Except String SendOutcome :=
  match integration with
  | none => Except.ok SendOutcome.integrationRemoved
  | some _ =>
    match postError with
    | some e => Except.ok (SendOutcome.postFailed e)
    | none => Except.ok SendOutcome.posted

/-- The display-name bookkeeping of the users scan, as a pure step on the
`(id_data, found_duplicate)` state: on a display-name match, a second
match after a recorded candidate marks the duplicate, a first match
records the candidate tuple. -/
def dnStep (name : String) (pfx : String) (st : IdData × Bool) (c : SlackItem) :
    IdData × Bool :=
  if dnOf c = some name then
    match st.1 with
    | some d => (some d, true)
    | none => (some (pfx, some c.id, false), st.2)
  else st

/-- All items delivered across a sequence of pages, in scan order. -/
def allItems (pages : List FetchOutcome) : List SlackItem :=
  (pages.map pageItems).flatten

/-- A successful page none of whose items matches `name` exactly
(case-insensitively). -/
def okNoExact (name : String) (p : FetchOutcome) : Prop :=
  ∃ its cur, p = FetchOutcome.ok its cur ∧
    ∀ c ∈ its, lower c.name ≠ lower name

/-- A successful page with no exact match and a truthy continuation
cursor: scanning it neither returns nor breaks the pagination loop. -/
def okCleanTruthy (name : String) (p : FetchOutcome) : Prop :=
  ∃ its cur, p = FetchOutcome.ok its cur ∧
    (∀ c ∈ its, lower c.name ≠ lower name) ∧ cursorTruthy cur = true

/-- Every page of the sequence is actually scanned: all fetches succeed
and every page before the last carries a truthy cursor. -/
def scansAll : List FetchOutcome → Prop
  | [] => True
  | [FetchOutcome.ok _ _] => True
  | [FetchOutcome.apiError] => False
  | FetchOutcome.ok _ cur :: p :: rest => cursorTruthy cur = true ∧ scansAll (p :: rest)
  | FetchOutcome.apiError :: _ :: _ => False

/-- Invariant of the recorded candidate: its timed_out component is
always `False`. -/
def idDataOk : IdData → Prop :=
  fun d => ∀ px cid tb, d = some (px, cid, tb) → tb = false

/-- Invariant of a returned tuple: a present channel id comes with
`timed_out = False`. -/
def resOk : ResTuple → Prop :=
  fun r => r.2.1.isSome = true → r.2.2 = false

end SlackUtils

namespace SlackUtils

theorem scanItems_exact (name : String) (isUsers : Bool) (pfx : String) (c : SlackItem)
    (hc : lower c.name = lower name) :
    ∀ (pre post : List SlackItem) (idData : IdData) (fd : Bool),
      (∀ d ∈ pre, lower d.name ≠ lower name) →
      scanItems name isUsers pfx (pre ++ c :: post) idData fd
        = Sum.inl (pfx, some c.id, false) := by
  intro pre
  induction pre with
  | nil =>
    intro post idData fd _
    simp [scanItems, hc]
  | cons d pre ih =>
    intro post idData fd hpre
    have hd : ¬ lower d.name = lower name := hpre d (by simp)
    have hrest : ∀ e ∈ pre, lower e.name ≠ lower name := fun e he =>
      hpre e (List.mem_cons_of_mem d he)
    by_cases hdn : isUsers = true ∧ dnOf d = some name
    · obtain ⟨hU, hdn'⟩ := hdn
      subst hU
      cases idData with
      | none => simp [scanItems, hd, hdn', ih post _ _ hrest]
      | some v => simp [scanItems, hd, hdn', ih post _ _ hrest]
    · simp [scanItems, hd, hdn, ih post _ _ hrest]

theorem scanItems_no_exact_conv (name : String) (pfx : String) :
    ∀ (items : List SlackItem) (idData : IdData) (fd : Bool),
      (∀ c ∈ items, lower c.name ≠ lower name) →
      scanItems name false pfx items idData fd = Sum.inr (idData, fd) := by
  intro items
  induction items with
  | nil => intro idData fd _; simp [scanItems]
  | cons c items ih =>
    intro idData fd h
    have hc : ¬ lower c.name = lower name := h c (by simp)
    have hrest : ∀ e ∈ items, lower e.name ≠ lower name := fun e he =>
      h e (List.mem_cons_of_mem c he)
    simp [scanItems, hc, ih _ _ hrest]

theorem scanItems_no_exact_users (name : String) (pfx : String) :
    ∀ (items : List SlackItem) (idData : IdData) (fd : Bool),
      (∀ c ∈ items, lower c.name ≠ lower name) →
      scanItems name true pfx items idData fd
        = Sum.inr (items.foldl (dnStep name pfx) (idData, fd)) := by
  intro items
  induction items with
  | nil => intro idData fd _; simp [scanItems]
  | cons c items ih =>
    intro idData fd h
    have hc : ¬ lower c.name = lower name := h c (by simp)
    have hrest : ∀ e ∈ items, lower e.name ≠ lower name := fun e he =>
      h e (List.mem_cons_of_mem c he)
    by_cases hdn : dnOf c = some name
    · cases idData with
      | none => simp [scanItems, hc, hdn, dnStep, ih _ _ hrest]
      | some v => simp [scanItems, hc, hdn, dnStep, ih _ _ hrest]
    · simp [scanItems, hc, hdn, dnStep, ih _ _ hrest]

end SlackUtils

namespace SlackUtils

/-- Whether an item is a display-name match for the query. -/
def isDN (name : String) (c : SlackItem) : Bool :=
  dnOf c == some name

theorem dnFold_fd_mono (name : String) (pfx : String) :
    ∀ (items : List SlackItem) (st : IdData × Bool), st.2 = true →
      (items.foldl (dnStep name pfx) st).2 = true := by
  intro items
  induction items with
  | nil => intro st h; simpa using h
  | cons c items ih =>
    intro st h
    simp only [List.foldl_cons]
    apply ih
    by_cases hdn : dnOf c = some name
    · cases hst : st.1 <;> simp [dnStep, hdn, hst, h]
    · simpa [dnStep, hdn] using h

theorem dnFold_some_count (name : String) (pfx : String) :
    ∀ (items : List SlackItem) (st : IdData × Bool), st.1.isSome = true →
      1 ≤ items.countP (isDN name) →
      (items.foldl (dnStep name pfx) st).2 = true := by
  intro items
  induction items with
  | nil => intro st _ hcount; simp at hcount
  | cons c items ih =>
    intro st hsome hcount
    simp only [List.foldl_cons]
    by_cases hdn : dnOf c = some name
    · obtain ⟨d, hd⟩ := Option.isSome_iff_exists.mp hsome
      have : dnStep name pfx st c = (some d, true) := by
        simp [dnStep, hdn, hd]
      rw [this]
      exact dnFold_fd_mono name pfx items _ rfl
    · have hc : isDN name c = false := by simp [isDN, hdn]
      have hcount' : 1 ≤ items.countP (isDN name) := by
        simpa [List.countP_cons, hc] using hcount
      have : dnStep name pfx st c = st := by simp [dnStep, hdn]
      rw [this]
      exact ih st hsome hcount'

theorem dnFold_ge2 (name : String) (pfx : String) :
    ∀ (items : List SlackItem) (st : IdData × Bool),
      2 ≤ items.countP (isDN name) →
      (items.foldl (dnStep name pfx) st).2 = true := by
  intro items
  induction items with
  | nil => intro st hcount; simp at hcount
  | cons c items ih =>
    intro st hcount
    simp only [List.foldl_cons]
    by_cases hdn : dnOf c = some name
    · have hc : isDN name c = true := by simp [isDN, hdn]
      have hcount' : 1 ≤ items.countP (isDN name) := by
        have heq : (c :: items).countP (isDN name) = items.countP (isDN name) + 1 := by
          rw [List.countP_cons, hc]
          simp
        omega
      cases hst : st.1 with
      | some d =>
        have hstep : dnStep name pfx st c = (some d, true) := by
          simp [dnStep, hdn, hst]
        rw [hstep]
        exact dnFold_fd_mono name pfx items _ rfl
      | none =>
        have hstep : dnStep name pfx st c = (some (pfx, some c.id, false), st.2) := by
          simp [dnStep, hdn, hst]
        rw [hstep]
        exact dnFold_some_count name pfx items _ rfl hcount'
    · have hc : isDN name c = false := by simp [isDN, hdn]
      have hcount' : 2 ≤ items.countP (isDN name) := by
        simpa [List.countP_cons, hc] using hcount
      have hstep : dnStep name pfx st c = st := by simp [dnStep, hdn]
      rw [hstep]
      exact ih st hcount'

theorem dnFold_no_match (name : String) (pfx : String) :
    ∀ (items : List SlackItem) (st : IdData × Bool),
      (∀ c ∈ items, dnOf c ≠ some name) →
      items.foldl (dnStep name pfx) st = st := by
  intro items
  induction items with
  | nil => intro st _; rfl
  | cons c items ih =>
    intro st h
    have hc : dnOf c ≠ some name := h c (by simp)
    have hrest : ∀ e ∈ items, dnOf e ≠ some name := fun e he =>
      h e (List.mem_cons_of_mem c he)
    simp only [List.foldl_cons]
    rw [show dnStep name pfx st c = st by simp [dnStep, hc]]
    exact ih st hrest

theorem allItems_nil : allItems [] = [] := rfl

theorem allItems_ok_cons (its : List SlackItem) (cur : Option String)
    (rest : List FetchOutcome) :
    allItems (FetchOutcome.ok its cur :: rest) = its ++ allItems rest := by
  simp [allItems, pageItems]

end SlackUtils

namespace SlackUtils

theorem conv_not_users : (("conversations" : String) == "users") = false := by decide

theorem conv_ne_users : ("conversations" : String) ≠ "users" := by decide

theorem users_is_users : (("users" : String) == "users") = true := by decide

theorem runListType_clean_conv (name pfx : String) (clock : Nat → Nat) (ttq : Nat)
    (hclock : ∀ k, clock k ≤ ttq) :
    ∀ (pages : List FetchOutcome) (calls : Nat) (idData : IdData) (fd : Bool),
      (∀ p ∈ pages, okNoExact name p) →
      ∃ calls', runListType name false pfx clock ttq pages calls idData fd
        = Sum.inr (calls', idData, fd) := by
  intro pages
  induction pages with
  | nil => intro calls idData fd _; exact ⟨calls, rfl⟩
  | cons p pages ih =>
    intro calls idData fd hp
    obtain ⟨its, cur, rfl, hno⟩ := hp p (by simp)
    have hrest : ∀ q ∈ pages, okNoExact name q := fun q hq =>
      hp q (List.mem_cons_of_mem _ hq)
    have htime : ¬ ttq < clock calls := Nat.not_lt.mpr (hclock calls)
    have hscan := scanItems_no_exact_conv name pfx its idData fd hno
    by_cases hcur : cursorTruthy cur = true
    · obtain ⟨calls', h⟩ := ih (calls + 1) idData fd hrest
      exact ⟨calls', by simp [runListType, hscan, htime, hcur, h]⟩
    · exact ⟨calls + 1, by simp [runListType, hscan, htime, hcur]⟩

theorem runListType_scan_users (name pfx : String) (clock : Nat → Nat) (ttq : Nat)
    (hclock : ∀ k, clock k ≤ ttq) :
    ∀ (pages : List FetchOutcome) (calls : Nat) (idData : IdData) (fd : Bool),
      (∀ p ∈ pages, okNoExact name p) → scansAll pages →
      ∃ calls', runListType name true pfx clock ttq pages calls idData fd
        = Sum.inr (calls', (allItems pages).foldl (dnStep name pfx) (idData, fd)) := by
  intro pages
  induction pages with
  | nil => intro calls idData fd _ _; exact ⟨calls, by simp [allItems, runListType]⟩
  | cons p pages ih =>
    intro calls idData fd hp hscans
    obtain ⟨its, cur, rfl, hno⟩ := hp p (by simp)
    have hrest : ∀ q ∈ pages, okNoExact name q := fun q hq =>
      hp q (List.mem_cons_of_mem _ hq)
    have htime : ¬ ttq < clock calls := Nat.not_lt.mpr (hclock calls)
    have hscan := scanItems_no_exact_users name pfx its idData fd hno
    rw [allItems_ok_cons, List.foldl_append]
    cases pages with
    | nil =>
      by_cases hcur : cursorTruthy cur = true
      · exact ⟨calls + 1, by simp [runListType, hscan, htime, hcur, allItems]⟩
      · exact ⟨calls + 1, by simp [runListType, hscan, htime, hcur, allItems]⟩
    | cons q rest =>
      have hshape : cursorTruthy cur = true ∧ scansAll (q :: rest) := by
        simpa [scansAll] using hscans
      obtain ⟨hcur, hscans'⟩ := hshape
      obtain ⟨calls', h⟩ := ih (calls + 1)
        (its.foldl (dnStep name pfx) (idData, fd)).1
        (its.foldl (dnStep name pfx) (idData, fd)).2 hrest hscans'
      refine ⟨calls', ?_⟩
      simp only [runListType, hscan, htime, if_false, hcur, if_true]
      simpa using h

theorem scanItems_no_exact_inr (name : String) (isUsers : Bool) (pfx : String)
    (items : List SlackItem) (idData : IdData) (fd : Bool)
    (h : ∀ c ∈ items, lower c.name ≠ lower name) :
    ∃ st, scanItems name isUsers pfx items idData fd = Sum.inr st := by
  cases isUsers with
  | false => exact ⟨(idData, fd), scanItems_no_exact_conv name pfx items idData fd h⟩
  | true => exact ⟨_, scanItems_no_exact_users name pfx items idData fd h⟩

theorem runListType_exact_reach (name pfx : String) (isUsers : Bool)
    (clock : Nat → Nat) (ttq : Nat)
    (c : SlackItem) (hc : lower c.name = lower name) :
    ∀ (prevPages : List FetchOutcome) (calls : Nat) (idData : IdData) (fd : Bool)
      (pre post : List SlackItem) (cur : Option String) (rest : List FetchOutcome),
      (∀ p ∈ prevPages, okCleanTruthy name p) →
      (∀ j, j < prevPages.length → clock (calls + j) ≤ ttq) →
      (∀ d ∈ pre, lower d.name ≠ lower name) →
      runListType name isUsers pfx clock ttq
        (prevPages ++ FetchOutcome.ok (pre ++ c :: post) cur :: rest) calls idData fd
        = Sum.inl (pfx, some c.id, false) := by
  intro prevPages
  induction prevPages with
  | nil =>
    intro calls idData fd pre post cur rest _ _ hpre
    have hscan := scanItems_exact name isUsers pfx c hc pre post idData fd hpre
    simp [runListType, hscan]
  | cons p prevPages ih =>
    intro calls idData fd pre post cur rest hprev hclock hpre
    obtain ⟨its, pcur, rfl, hno, hcurT⟩ := hprev p (by simp)
    have hprev' : ∀ q ∈ prevPages, okCleanTruthy name q := fun q hq =>
      hprev q (List.mem_cons_of_mem _ hq)
    have hc0 : clock calls ≤ ttq := by
      have := hclock 0 (by simp)
      simpa using this
    have htime : ¬ ttq < clock calls := Nat.not_lt.mpr hc0
    obtain ⟨⟨d0, f0⟩, hscan⟩ := scanItems_no_exact_inr name isUsers pfx its idData fd hno
    have hclock' : ∀ j, j < prevPages.length → clock (calls + 1 + j) ≤ ttq := by
      intro j hj
      have h2 : calls + 1 + j = calls + (j + 1) := by omega
      rw [h2]
      exact hclock (j + 1) (by simp; omega)
    have hrec := ih (calls + 1) d0 f0 pre post cur rest hprev' hclock' hpre
    simp [runListType, hscan, htime, hcurT, hrec]

end SlackUtils

namespace SlackUtils

theorem scanItems_inl_tb (name : String) (isUsers : Bool) (pfx : String) :
    ∀ (items : List SlackItem) (idData : IdData) (fd : Bool) (r : ResTuple),
      scanItems name isUsers pfx items idData fd = Sum.inl r → r.2.2 = false := by
  intro items
  induction items with
  | nil => intro idData fd r h; simp [scanItems] at h
  | cons c items ih =>
    intro idData fd r h
    by_cases hname : lower c.name = lower name
    · simp [scanItems, hname] at h
      simp [← h]
    · by_cases hdn : isUsers = true ∧ dnOf c = some name
      · obtain ⟨hU, hdn'⟩ := hdn
        subst hU
        cases idData with
        | some d => exact ih _ _ r (by simpa [scanItems, hname, hdn'] using h)
        | none => exact ih _ _ r (by simpa [scanItems, hname, hdn'] using h)
      · exact ih _ _ r (by simpa [scanItems, hname, hdn] using h)

theorem scanItems_inr_idDataOk (name : String) (isUsers : Bool) (pfx : String) :
    ∀ (items : List SlackItem) (idData : IdData) (fd : Bool) (d : IdData) (f : Bool),
      idDataOk idData → scanItems name isUsers pfx items idData fd = Sum.inr (d, f) →
      idDataOk d := by
  intro items
  induction items with
  | nil =>
    intro idData fd d f hok h
    simp [scanItems] at h
    rw [← h.1]
    exact hok
  | cons c items ih =>
    intro idData fd d f hok h
    by_cases hname : lower c.name = lower name
    · simp [scanItems, hname] at h
    · by_cases hdn : isUsers = true ∧ dnOf c = some name
      · obtain ⟨hU, hdn'⟩ := hdn
        subst hU
        cases idData with
        | some v =>
          exact ih (some v) true d f hok (by simpa [scanItems, hname, hdn'] using h)
        | none =>
          refine ih _ fd d f ?_ (by simpa [scanItems, hname, hdn'] using h)
          intro px cid tb he
          cases he
          rfl
      · exact ih idData fd d f hok (by simpa [scanItems, hname, hdn] using h)

theorem runListType_inl_resOk (name : String) (isUsers : Bool) (pfx : String)
    (clock : Nat → Nat) (ttq : Nat) :
    ∀ (pages : List FetchOutcome) (calls : Nat) (idData : IdData) (fd : Bool) (r : ResTuple),
      runListType name isUsers pfx clock ttq pages calls idData fd = Sum.inl r →
      r.2.2 = false ∨ r.2.1 = none := by
  intro pages
  induction pages with
  | nil => intro calls idData fd r h; simp [runListType] at h
  | cons p pages ih =>
    intro calls idData fd r h
    cases p with
    | apiError =>
      simp [runListType] at h
      rw [← h]
      simp
    | ok its cur =>
      cases hscan : scanItems name isUsers pfx its idData fd with
      | inl r' =>
        simp [runListType, hscan] at h
        left
        rw [← h]
        exact scanItems_inl_tb name isUsers pfx its idData fd r' hscan
      | inr st =>
        by_cases htime : ttq < clock calls
        · simp [runListType, hscan, htime] at h
          right
          rw [← h]
        · by_cases hcur : cursorTruthy cur = true
          · exact ih (calls + 1) st.1 st.2 r
              (by simpa [runListType, hscan, htime, hcur] using h)
          · simp [runListType, hscan, htime, hcur] at h

theorem runListType_inr_idDataOk (name : String) (isUsers : Bool) (pfx : String)
    (clock : Nat → Nat) (ttq : Nat) :
    ∀ (pages : List FetchOutcome) (calls : Nat) (idData : IdData) (fd : Bool)
      (calls' : Nat) (d : IdData) (f : Bool),
      idDataOk idData →
      runListType name isUsers pfx clock ttq pages calls idData fd
        = Sum.inr (calls', d, f) →
      idDataOk d := by
  intro pages
  induction pages with
  | nil =>
    intro calls idData fd calls' d f hok h
    simp [runListType] at h
    rw [← h.2.1]
    exact hok
  | cons p pages ih =>
    intro calls idData fd calls' d f hok h
    cases p with
    | apiError => simp [runListType] at h
    | ok its cur =>
      cases hscan : scanItems name isUsers pfx its idData fd with
      | inl r' => simp [runListType, hscan] at h
      | inr st =>
        obtain ⟨d0, f0⟩ := st
        have hst : idDataOk d0 :=
          scanItems_inr_idDataOk name isUsers pfx its idData fd d0 f0 hok hscan
        by_cases htime : ttq < clock calls
        · simp [runListType, hscan, htime] at h
        · by_cases hcur : cursorTruthy cur = true
          · exact ih (calls + 1) d0 f0 calls' d f hst
              (by simpa [runListType, hscan, htime, hcur] using h)
          · have hh := h
            simp [runListType, hscan, htime, hcur] at hh
            rw [← hh.2.1]
            exact hst

theorem resolveLoop_ok_resOk (name : String) (clock : Nat → Nat) (ttq : Nat)
    (env : String → List FetchOutcome) :
    ∀ (types : List (String × String × String)) (calls : Nat) (idData : IdData)
      (fd : Bool) (lastPfx : String) (r : ResTuple),
      idDataOk idData →
      resolveLoop name clock ttq env types calls idData fd lastPfx = Except.ok r →
      (r.2.1.isSome = true → r.2.2 = false) := by
  intro types
  induction types with
  | nil =>
    intro calls idData fd lastPfx r _ h
    simp [resolveLoop] at h
    rw [← h]
    simp
  | cons t types ih =>
    intro calls idData fd lastPfx r hok h
    obtain ⟨listType, resultName, pfx⟩ := t
    cases hrun : runListType name (listType == "users") pfx clock ttq (env listType)
        calls idData fd with
    | inl r' =>
      have hshape := runListType_inl_resOk name (listType == "users") pfx clock ttq
        (env listType) calls idData fd r' hrun
      simp [resolveLoop, hrun] at h
      rw [← h]
      intro hsome
      rcases hshape with htb | hnone
      · exact htb
      · rw [hnone] at hsome
        simp at hsome
    | inr st =>
      obtain ⟨calls', d, f⟩ := st
      have hd : idDataOk d :=
        runListType_inr_idDataOk name (listType == "users") pfx clock ttq
          (env listType) calls idData fd calls' d f hok hrun
      by_cases hf : f = true
      · simp [resolveLoop, hrun, hf] at h
      · cases hdd : d with
        | some r0 =>
          have : r = r0 := by
            simpa [resolveLoop, hrun, hf, hdd] using h.symm
          intro _
          rw [this]
          obtain ⟨px, cid, tb⟩ := r0
          exact hd px cid tb (by rw [hdd])
        | none =>
          exact ih calls' d f pfx r (by rw [hdd]; intro px cid tb he; cases he)
            (by simpa [resolveLoop, hrun, hf, hdd] using h)

end SlackUtils

namespace SlackUtils

theorem runListType_clean_conv_exact (name pfx : String) (clock : Nat → Nat) (ttq : Nat) :
    ∀ (pages : List FetchOutcome) (calls : Nat) (idData : IdData) (fd : Bool),
      (∀ p ∈ pages, okNoExact name p) → scansAll pages →
      (∀ j, j < pages.length → clock (calls + j) ≤ ttq) →
      runListType name false pfx clock ttq pages calls idData fd
        = Sum.inr (calls + pages.length, idData, fd) := by
  intro pages
  induction pages with
  | nil => intro calls idData fd _ _ _; simp [runListType]
  | cons p pages ih =>
    intro calls idData fd hp hscans hclock
    obtain ⟨its, cur, rfl, hno⟩ := hp p (by simp)
    have hrest : ∀ q ∈ pages, okNoExact name q := fun q hq =>
      hp q (List.mem_cons_of_mem _ hq)
    have hc0 : clock calls ≤ ttq := by
      have := hclock 0 (by simp)
      simpa using this
    have htime : ¬ ttq < clock calls := Nat.not_lt.mpr hc0
    have hscan := scanItems_no_exact_conv name pfx its idData fd hno
    have hclock' : ∀ j, j < pages.length → clock (calls + 1 + j) ≤ ttq := by
      intro j hj
      have h2 : calls + 1 + j = calls + (j + 1) := by omega
      rw [h2]
      exact hclock (j + 1) (by simp; omega)
    cases pages with
    | nil =>
      by_cases hcur : cursorTruthy cur = true
      · simp [runListType, hscan, htime, hcur]
      · simp [runListType, hscan, htime, hcur]
    | cons q rest =>
      have hshape : cursorTruthy cur = true ∧ scansAll (q :: rest) := by
        simpa [scansAll] using hscans
      obtain ⟨hcur, hscans'⟩ := hshape
      have hrec := ih (calls + 1) idData fd hrest hscans' hclock'
      have hgoal : runListType name false pfx clock ttq
          (FetchOutcome.ok its cur :: q :: rest) calls idData fd
          = runListType name false pfx clock ttq (q :: rest) (calls + 1) idData fd := by
        simp [runListType, hscan, htime, hcur]
      have hlen : calls + 1 + (q :: rest).length
          = calls + (FetchOutcome.ok its cur :: q :: rest).length := by
        simp [List.length_cons]
        omega
      rw [hgoal, hrec, hlen]

theorem runListType_clean_users_noDN (name pfx : String) (clock : Nat → Nat) (ttq : Nat)
    (hclock : ∀ k, clock k ≤ ttq) :
    ∀ (pages : List FetchOutcome) (calls : Nat) (idData : IdData) (fd : Bool),
      (∀ p ∈ pages, okNoExact name p) →
      (∀ p ∈ pages, ∀ c ∈ pageItems p, dnOf c ≠ some name) →
      ∃ calls', runListType name true pfx clock ttq pages calls idData fd
        = Sum.inr (calls', idData, fd) := by
  intro pages
  induction pages with
  | nil => intro calls idData fd _ _; exact ⟨calls, rfl⟩
  | cons p pages ih =>
    intro calls idData fd hp hdn
    obtain ⟨its, cur, rfl, hno⟩ := hp p (by simp)
    have hrest : ∀ q ∈ pages, okNoExact name q := fun q hq =>
      hp q (List.mem_cons_of_mem _ hq)
    have hdnrest : ∀ q ∈ pages, ∀ c ∈ pageItems q, dnOf c ≠ some name := fun q hq =>
      hdn q (List.mem_cons_of_mem _ hq)
    have hdnits : ∀ c ∈ its, dnOf c ≠ some name := by
      have := hdn _ (List.mem_cons_self _ pages)
      simpa [pageItems] using this
    have htime : ¬ ttq < clock calls := Nat.not_lt.mpr (hclock calls)
    have hscan := scanItems_no_exact_users name pfx its idData fd hno
    rw [dnFold_no_match name pfx its (idData, fd) hdnits] at hscan
    by_cases hcur : cursorTruthy cur = true
    · obtain ⟨calls', h⟩ := ih (calls + 1) idData fd hrest hdnrest
      exact ⟨calls', by simp [runListType, hscan, htime, hcur, h]⟩
    · exact ⟨calls + 1, by simp [runListType, hscan, htime, hcur]⟩

theorem dropWhile_head_not {α : Type} (p : α → Bool) :
    ∀ (l : List α) (c : α), (l.dropWhile p).head? = some c → p c = false := by
  intro l
  induction l with
  | nil => intro c h; simp at h
  | cons a l ih =>
    intro c h
    by_cases hp : p a = true
    · exact ih c (by simpa [List.dropWhile_cons, hp] using h)
    · have hfa : p a = false := by simpa using hp
      have hl : (a :: l).dropWhile p = a :: l := by simp [List.dropWhile_cons, hfa]
      rw [hl] at h
      simp at h
      exact h ▸ hfa

end SlackUtils

namespace SlackUtils

/-- C1: if an item whose `name` equals the query name case-insensitively
appears in the items scanned, resolution returns Found — the current
list type's prefix, that item's id and timed_out = false — immediately
upon scanning it, because the exact-name check precedes the per-page
time check. First conjunct: for any list type (`isUsers` and the prefix
arbitrary) and any loop state (`idData`, `foundDup` arbitrary — recorded
display-name candidates and pending duplicates do not preempt the exact
match), once the loop reaches the matching page (all earlier pages
succeeded, contained no exact match, carried truthy cursors, and the
deadline had not expired after any of them), scanning it returns
`(prefix, id, False)`, with no constraint on the clock at or after that
page (the deadline may already have expired mid-page) and arbitrary
surrounding items. Second conjunct: the top-level conversations case,
the users environment arbitrary. Third conjunct: the top-level users
case — conversations exhausted cleanly, the match sitting in a reached
users page, display-name collisions before the match allowed — returns
`("@", id, False)`. -/
theorem claim_C1_exact_match_found
    (name : String) (timeout : Nat) (clock : Nat → Nat)
    (env : String → List FetchOutcome) :
    (∀ (isUsers : Bool) (pfx : String) (prevPages : List FetchOutcome)
        (calls : Nat) (idData : IdData) (fd : Bool) (pre post : List SlackItem)
        (c : SlackItem) (cur : Option String) (rest : List FetchOutcome),
      (∀ p ∈ prevPages, okCleanTruthy name p) →
      (∀ j, j < prevPages.length → clock (calls + j) ≤ clock 0 + timeout) →
      (∀ d ∈ pre, lower d.name ≠ lower name) →
      lower c.name = lower name →
      runListType name isUsers pfx clock (clock 0 + timeout)
        (prevPages ++ FetchOutcome.ok (pre ++ c :: post) cur :: rest) calls idData fd
        = Sum.inl (pfx, some c.id, false)) ∧
    (∀ (prevPages : List FetchOutcome) (pre post : List SlackItem) (c : SlackItem)
        (cur : Option String) (rest : List FetchOutcome),
      env "conversations"
        = prevPages ++ FetchOutcome.ok (pre ++ c :: post) cur :: rest →
      (∀ p ∈ prevPages, okCleanTruthy name p) →
      (∀ j, j < prevPages.length → clock (1 + j) ≤ clock 0 + timeout) →
      (∀ d ∈ pre, lower d.name ≠ lower name) →
      lower c.name = lower name →
      get_channel_id_with_timeout name timeout clock env
        = Except.ok (CHANNEL_PFX, some c.id, false)) ∧
    (∀ (prevU : List FetchOutcome) (pre post : List SlackItem) (c : SlackItem)
        (cur : Option String) (rest : List FetchOutcome),
      (∀ p ∈ env "conversations", okNoExact name p) →
      scansAll (env "conversations") →
      (∀ j, j < (env "conversations").length → clock (1 + j) ≤ clock 0 + timeout) →
      env "users" = prevU ++ FetchOutcome.ok (pre ++ c :: post) cur :: rest →
      (∀ p ∈ prevU, okCleanTruthy name p) →
      (∀ j, j < prevU.length →
        clock (1 + (env "conversations").length + j) ≤ clock 0 + timeout) →
      (∀ d ∈ pre, lower d.name ≠ lower name) →
      lower c.name = lower name →
      get_channel_id_with_timeout name timeout clock env
        = Except.ok (MEMBER_PFX, some c.id, false)) := by
  refine ⟨?_, ?_, ?_⟩
  · intro isUsers pfx prevPages calls idData fd pre post c cur rest hprev hclock hpre hc
    exact runListType_exact_reach name pfx isUsers clock (clock 0 + timeout) c hc
      prevPages calls idData fd pre post cur rest hprev hclock hpre
  · intro prevPages pre post c cur rest henv hprev hclock hpre hc
    have hrun := runListType_exact_reach name CHANNEL_PFX false clock
      (clock 0 + timeout) c hc prevPages 1 none false pre post cur rest hprev
      hclock hpre
    rw [← henv] at hrun
    simp [get_channel_id_with_timeout, LIST_TYPES, resolveLoop, conv_not_users, hrun]
  · intro prevU pre post c cur rest hconvClean hconvScans hconvClock henvU
      husersPrev husersClock hpre hc
    have hconv := runListType_clean_conv_exact name CHANNEL_PFX clock
      (clock 0 + timeout) (env "conversations") 1 none false hconvClean hconvScans
      hconvClock
    have hrunU := runListType_exact_reach name MEMBER_PFX true clock
      (clock 0 + timeout) c hc prevU (1 + (env "conversations").length) none false
      pre post cur rest husersPrev husersClock hpre
    rw [← henvU] at hrunU
    simp [get_channel_id_with_timeout, LIST_TYPES, resolveLoop, conv_not_users,
      users_is_users, hconv, hrunU]

/-- Witness for C1 at a concrete input exercising the users case: the
query "bob" matches the users item named "bob" on the first users page
even though an earlier item on the same page already recorded a
display-name candidate for "bob" and the clock is past the deadline
after that page. -/
theorem claim_C1_exact_match_found_witness :
    get_channel_id_with_timeout "bob" 10 (fun k => if k ≤ 1 then 0 else 100)
      (fun lt => if lt = "users"
        then [FetchOutcome.ok
          [⟨"jane", "U1", some (some "bob")⟩, ⟨"bob", "U2", some (some "bob")⟩]
          (some "c")]
        else [FetchOutcome.ok [] none])
      = Except.ok (MEMBER_PFX, some "U2", false) :=
  (claim_C1_exact_match_found "bob" 10 (fun k => if k ≤ 1 then 0 else 100)
    (fun lt => if lt = "users"
      then [FetchOutcome.ok
        [⟨"jane", "U1", some (some "bob")⟩, ⟨"bob", "U2", some (some "bob")⟩]
        (some "c")]
      else [FetchOutcome.ok [] none])).2.2
    [] [⟨"jane", "U1", some (some "bob")⟩] [] ⟨"bob", "U2", some (some "bob")⟩
    (some "c") []
    (by intro p hp
        simp [conv_ne_users] at hp
        subst hp
        exact ⟨_, _, rfl, by decide⟩)
    (by simp [scansAll])
    (by intro j hj
        simp at hj
        subst hj
        decide)
    rfl
    (by intro p hp; cases hp)
    (by intro j hj; cases hj)
    (by intro d hd
        simp at hd
        subst hd
        decide)
    (by decide)

/-- C2: a transport error (`ApiError`) on a page fetch makes the current
list type return `(prefix, None, False)` immediately. First conjunct:
for any list type and any loop state, a failed fetch ends the whole
resolution with `NotFound` for the current prefix. Second conjunct: at
the top level, a transport error on the first conversations fetch yields
`("#", None, False)` whatever the users environment holds — no
fall-through to users. Third conjunct: after cleanly exhausting
conversations, a transport error on the first users fetch yields
`("@", None, False)`. -/
theorem claim_C2_transport_error_not_found
    (name : String) (timeout : Nat) (clock : Nat → Nat)
    (env : String → List FetchOutcome) :
    (∀ (isUsers : Bool) (pfx : String) (pages : List FetchOutcome) (calls : Nat)
        (idData : IdData) (fd : Bool),
      runListType name isUsers pfx clock (clock 0 + timeout)
        (FetchOutcome.apiError :: pages) calls idData fd
        = Sum.inl (pfx, none, false)) ∧
    (∀ rest, env "conversations" = FetchOutcome.apiError :: rest →
      get_channel_id_with_timeout name timeout clock env
        = Except.ok (CHANNEL_PFX, none, false)) ∧
    (∀ usersRest,
      (∀ p ∈ env "conversations", okNoExact name p) →
      (∀ k, clock k ≤ clock 0 + timeout) →
      env "users" = FetchOutcome.apiError :: usersRest →
      get_channel_id_with_timeout name timeout clock env
        = Except.ok (MEMBER_PFX, none, false)) := by
  refine ⟨?_, ?_, ?_⟩
  · intro isUsers pfx pages calls idData fd
    simp [runListType]
  · intro rest henv
    have hrun : runListType name false CHANNEL_PFX clock (clock 0 + timeout)
        (env "conversations") 1 none false = Sum.inl (CHANNEL_PFX, none, false) := by
      rw [henv]
      simp [runListType]
    simp [get_channel_id_with_timeout, LIST_TYPES, resolveLoop, conv_not_users, hrun]
  · intro usersRest hclean hclock henvU
    obtain ⟨calls', hconv⟩ := runListType_clean_conv name CHANNEL_PFX clock
      (clock 0 + timeout) hclock (env "conversations") 1 none false hclean
    have hrunU : runListType name true MEMBER_PFX clock (clock 0 + timeout)
        (env "users") calls' none false = Sum.inl (MEMBER_PFX, none, false) := by
      rw [henvU]
      simp [runListType]
    simp [get_channel_id_with_timeout, LIST_TYPES, resolveLoop, conv_not_users,
      users_is_users, hconv, hrunU]

/-- Witness for C2 at a concrete input: a transport error on the first
conversations fetch returns `("#", None, False)` even though the users
environment contains an exact match. -/
theorem claim_C2_transport_error_not_found_witness :
    get_channel_id_with_timeout "x" 10 (fun _ => 0)
      (fun lt => if lt = "users"
        then [FetchOutcome.ok [⟨"x", "U1", none⟩] none]
        else [FetchOutcome.apiError])
      = Except.ok (CHANNEL_PFX, none, false) :=
  (claim_C2_transport_error_not_found "x" 10 (fun _ => 0)
    (fun lt => if lt = "users"
      then [FetchOutcome.ok [⟨"x", "U1", none⟩] none]
      else [FetchOutcome.apiError])).2.1 [] rfl

/-- C5: when the deadline is already past once the first conversations
page has been fetched and scanned (`clock 0 + timeout < clock 1`), and
that page succeeded without an exact match, resolution returns
`("#", None, True)` after that first page: the page is fetched and
scanned, never skipped. -/
theorem claim_C5_expired_deadline_first_page
    (name : String) (timeout : Nat) (clock : Nat → Nat)
    (env : String → List FetchOutcome)
    (its : List SlackItem) (cur : Option String) (rest : List FetchOutcome)
    (henv : env "conversations" = FetchOutcome.ok its cur :: rest)
    (hexpired : clock 0 + timeout < clock 1)
    (hno : ∀ c ∈ its, lower c.name ≠ lower name) :
    get_channel_id_with_timeout name timeout clock env
      = Except.ok (CHANNEL_PFX, none, true) := by
  have hscan := scanItems_no_exact_conv name CHANNEL_PFX its none false hno
  have hrun : runListType name false CHANNEL_PFX clock (clock 0 + timeout)
      (env "conversations") 1 none false = Sum.inl (CHANNEL_PFX, none, true) := by
    rw [henv]
    simp [runListType, hscan, hexpired]
  simp [get_channel_id_with_timeout, LIST_TYPES, resolveLoop, conv_not_users, hrun]

/-- Witness for C5 at a concrete input: the clock reads 11 after the
first page against a deadline of 0 + 10. -/
theorem claim_C5_expired_deadline_first_page_witness :
    get_channel_id_with_timeout "x" 10 (fun k => if k = 0 then 0 else 11)
      (fun _ => [FetchOutcome.ok [] none])
      = Except.ok (CHANNEL_PFX, none, true) :=
  claim_C5_expired_deadline_first_page "x" 10 (fun k => if k = 0 then 0 else 11)
    (fun _ => [FetchOutcome.ok [] none]) [] none [] rfl (by decide)
    (by intro c hc; cases hc)

/-- C10: result-shape invariant — whenever `get_channel_id_with_timeout`
returns a tuple `(prefix, channel_id, timed_out)`, a present channel id
forces `timed_out = false`; every timed-out or not-found result carries
`channel_id = None`. -/
theorem claim_C10_result_shape
    (name : String) (timeout : Nat) (clock : Nat → Nat)
    (env : String → List FetchOutcome)
    (px : String) (cid : Option String) (tb : Bool)
    (h : get_channel_id_with_timeout name timeout clock env = Except.ok (px, cid, tb))
    (hsome : cid.isSome = true) : tb = false := by
  have hres := resolveLoop_ok_resOk name clock (clock 0 + timeout) env LIST_TYPES
    1 none false "" (px, cid, tb)
    (by intro a b c hh; cases hh)
    (by simpa [get_channel_id_with_timeout] using h)
  exact hres hsome

/-- Witness for C10 at a concrete input where a channel id is found. -/
theorem claim_C10_result_shape_witness : (false : Bool) = false :=
  claim_C10_result_shape "general" 10 (fun _ => 0)
    (fun _ => [FetchOutcome.ok [⟨"general", "C1", none⟩] none])
    CHANNEL_PFX (some "C1") false rfl rfl

end SlackUtils

namespace SlackUtils

/-- C3: if the conversations pages contain no exact match, the users
pages are all scanned (every fetch succeeds, every non-final page has a
truthy cursor), no item anywhere scanned matches the query name
case-insensitively, at least two users items carry the queried display
name, and the deadline never expires, then resolution raises
`DuplicateDisplayNameError` with the query name after the users list
type is exhausted — taking precedence over returning the first recorded
candidate. -/
theorem claim_C3_duplicate_display_names_raise
    (name : String) (timeout : Nat) (clock : Nat → Nat)
    (env : String → List FetchOutcome)
    (hconvClean : ∀ p ∈ env "conversations", okNoExact name p)
    (husersClean : ∀ p ∈ env "users", okNoExact name p)
    (hscansU : scansAll (env "users"))
    (hdup : 2 ≤ (allItems (env "users")).countP (isDN name))
    (hclock : ∀ k, clock k ≤ clock 0 + timeout) :
    get_channel_id_with_timeout name timeout clock env = Except.error name := by
  obtain ⟨calls', hconv⟩ := runListType_clean_conv name CHANNEL_PFX clock
    (clock 0 + timeout) hclock (env "conversations") 1 none false hconvClean
  obtain ⟨calls'', husers⟩ := runListType_scan_users name MEMBER_PFX clock
    (clock 0 + timeout) hclock (env "users") calls' none false husersClean hscansU
  rcases hst : (allItems (env "users")).foldl (dnStep name MEMBER_PFX) (none, false)
    with ⟨d, f⟩
  have hfd : f = true := by
    have := dnFold_ge2 name MEMBER_PFX (allItems (env "users")) (none, false) hdup
    rw [hst] at this
    exact this
  rw [hst] at husers
  subst hfd
  simp [get_channel_id_with_timeout, LIST_TYPES, resolveLoop, conv_not_users,
    users_is_users, hconv, husers]

/-- Witness for C3 at a concrete input: two users share the display name
"jane", nothing matches exactly, and the clock never advances. -/
theorem claim_C3_duplicate_display_names_raise_witness :
    get_channel_id_with_timeout "jane" 10 (fun _ => 0)
      (fun lt => if lt = "users"
        then [FetchOutcome.ok
          [⟨"a", "U1", some (some "jane")⟩, ⟨"b", "U2", some (some "jane")⟩] none]
        else [FetchOutcome.ok [] none])
      = Except.error "jane" :=
  claim_C3_duplicate_display_names_raise "jane" 10 (fun _ => 0)
    (fun lt => if lt = "users"
      then [FetchOutcome.ok
        [⟨"a", "U1", some (some "jane")⟩, ⟨"b", "U2", some (some "jane")⟩] none]
      else [FetchOutcome.ok [] none])
    (by intro p hp
        simp [conv_ne_users] at hp
        subst hp
        exact ⟨_, _, rfl, by decide⟩)
    (by intro p hp
        simp at hp
        subst hp
        exact ⟨_, _, rfl, by decide⟩)
    (by simp [scansAll])
    (by decide)
    (fun k => by simp)

/-- C4, as the claim states it, is refuted at a concrete input: the
conversations list is empty; the first users page records two duplicate
display-name matches for "jane" and carries a truthy cursor, but the
clock (100) is past the deadline (0 + 10) after that page, so the code
returns `("@", None, True)` from the time check inside the pagination
loop instead of reaching the duplicate check and raising
`DuplicateDisplayNameError`. -/
theorem claim_C4_counterexample :
    get_channel_id_with_timeout "jane" 10 (fun k => if k ≤ 1 then 0 else 100)
      (fun lt => if lt = "users"
        then [FetchOutcome.ok
          [⟨"a", "U1", some (some "jane")⟩, ⟨"b", "U2", some (some "jane")⟩]
          (some "c")]
        else [FetchOutcome.ok [] none])
      = Except.ok (MEMBER_PFX, none, true) ∧
    ∀ s, get_channel_id_with_timeout "jane" 10 (fun k => if k ≤ 1 then 0 else 100)
      (fun lt => if lt = "users"
        then [FetchOutcome.ok
          [⟨"a", "U1", some (some "jane")⟩, ⟨"b", "U2", some (some "jane")⟩]
          (some "c")]
        else [FetchOutcome.ok [] none])
      ≠ Except.error s := by
  have h1 : get_channel_id_with_timeout "jane" 10 (fun k => if k ≤ 1 then 0 else 100)
      (fun lt => if lt = "users"
        then [FetchOutcome.ok
          [⟨"a", "U1", some (some "jane")⟩, ⟨"b", "U2", some (some "jane")⟩]
          (some "c")]
        else [FetchOutcome.ok [] none])
      = Except.ok (MEMBER_PFX, none, true) := rfl
  refine ⟨h1, ?_⟩
  intro s h
  rw [h1] at h
  exact Except.noConfusion h

/-- C4 amended: when duplicate display-name matches have been recorded
and the deadline then expires before the users list type is exhausted,
resolution returns `TimedOut` — the tuple `("@", None, True)` — rather
than raising `AmbiguousError`; the duplicate check fires only when the
users list type is exhausted without timing out. Here the conversations
pages are cleanly scanned within the deadline, the first users page has
no exact match but two or more display-name matches and a truthy cursor,
and the clock is past the deadline after that page. -/
theorem claim_C4_amended_timeout_wins
    (name : String) (timeout : Nat) (clock : Nat → Nat)
    (env : String → List FetchOutcome)
    (its : List SlackItem) (cur : Option String) (rest : List FetchOutcome)
    (hconvClean : ∀ p ∈ env "conversations", okNoExact name p)
    (hconvScans : scansAll (env "conversations"))
    (hconvClock : ∀ j, j < (env "conversations").length →
      clock (1 + j) ≤ clock 0 + timeout)
    (henvU : env "users" = FetchOutcome.ok its cur :: rest)
    (hnoU : ∀ c ∈ its, lower c.name ≠ lower name)
    (_hdup : 2 ≤ its.countP (isDN name))
    (_hcurT : cursorTruthy cur = true)
    (hexpired : clock 0 + timeout < clock (1 + (env "conversations").length)) :
    get_channel_id_with_timeout name timeout clock env
      = Except.ok (MEMBER_PFX, none, true) := by
  have hconv := runListType_clean_conv_exact name CHANNEL_PFX clock
    (clock 0 + timeout) (env "conversations") 1 none false hconvClean hconvScans
    hconvClock
  have hscan := scanItems_no_exact_users name MEMBER_PFX its none false hnoU
  have hrunU : runListType name true MEMBER_PFX clock (clock 0 + timeout)
      (env "users") (1 + (env "conversations").length) none false
      = Sum.inl (MEMBER_PFX, none, true) := by
    rw [henvU]
    simp [runListType, hscan, hexpired]
  simp [get_channel_id_with_timeout, LIST_TYPES, resolveLoop, conv_not_users,
    users_is_users, hconv, hrunU]

/-- Witness for the amended C4 at the counterexample's input. -/
theorem claim_C4_amended_timeout_wins_witness :
    get_channel_id_with_timeout "jane" 10 (fun k => if k ≤ 1 then 0 else 100)
      (fun lt => if lt = "users"
        then [FetchOutcome.ok
          [⟨"a", "U1", some (some "jane")⟩, ⟨"b", "U2", some (some "jane")⟩]
          (some "c")]
        else [FetchOutcome.ok [] none])
      = Except.ok (MEMBER_PFX, none, true) :=
  claim_C4_amended_timeout_wins "jane" 10 (fun k => if k ≤ 1 then 0 else 100)
    (fun lt => if lt = "users"
      then [FetchOutcome.ok
        [⟨"a", "U1", some (some "jane")⟩, ⟨"b", "U2", some (some "jane")⟩]
        (some "c")]
      else [FetchOutcome.ok [] none])
    [⟨"a", "U1", some (some "jane")⟩, ⟨"b", "U2", some (some "jane")⟩]
    (some "c") []
    (by intro p hp
        simp [conv_ne_users] at hp
        subst hp
        exact ⟨_, _, rfl, by decide⟩)
    (by simp [scansAll])
    (by intro j hj
        simp at hj
        subst hj
        decide)
    rfl
    (by intro c hc
        simp at hc
        rcases hc with h | h <;> subst h <;> decide)
    (by decide)
    (by decide)
    (by decide)

/-- C6: when every page of both list types is fetched successfully, no
item matches the query name case-insensitively, no users item carries
the queried display name, and the deadline never expires, resolution
returns `NotFound` with the last list type's prefix: the tuple
`("@", None, False)`, since users is checked last. -/
theorem claim_C6_not_found_last_prefix
    (name : String) (timeout : Nat) (clock : Nat → Nat)
    (env : String → List FetchOutcome)
    (hconvClean : ∀ p ∈ env "conversations", okNoExact name p)
    (husersClean : ∀ p ∈ env "users", okNoExact name p)
    (hnoDN : ∀ c ∈ allItems (env "users"), dnOf c ≠ some name)
    (hclock : ∀ k, clock k ≤ clock 0 + timeout) :
    get_channel_id_with_timeout name timeout clock env
      = Except.ok (MEMBER_PFX, none, false) := by
  obtain ⟨calls', hconv⟩ := runListType_clean_conv name CHANNEL_PFX clock
    (clock 0 + timeout) hclock (env "conversations") 1 none false hconvClean
  have hnoDN' : ∀ p ∈ env "users", ∀ c ∈ pageItems p, dnOf c ≠ some name := by
    intro p hp c hc
    apply hnoDN
    unfold allItems
    rw [List.mem_flatten]
    exact ⟨pageItems p, List.mem_map_of_mem pageItems hp, hc⟩
  obtain ⟨calls'', husers⟩ := runListType_clean_users_noDN name MEMBER_PFX clock
    (clock 0 + timeout) hclock (env "users") calls' none false husersClean hnoDN'
  simp [get_channel_id_with_timeout, LIST_TYPES, resolveLoop, conv_not_users,
    users_is_users, hconv, husers]

/-- Witness for C6 at a concrete input with one clean page per list
type. -/
theorem claim_C6_not_found_last_prefix_witness :
    get_channel_id_with_timeout "missing" 10 (fun _ => 0)
      (fun lt => if lt = "users"
        then [FetchOutcome.ok [⟨"bob", "U9", some (some "Bob R")⟩] none]
        else [FetchOutcome.ok [⟨"general", "C1", none⟩] none])
      = Except.ok (MEMBER_PFX, none, false) :=
  claim_C6_not_found_last_prefix "missing" 10 (fun _ => 0)
    (fun lt => if lt = "users"
      then [FetchOutcome.ok [⟨"bob", "U9", some (some "Bob R")⟩] none]
      else [FetchOutcome.ok [⟨"general", "C1", none⟩] none])
    (by intro p hp
        simp [conv_ne_users] at hp
        subst hp
        exact ⟨_, _, rfl, by decide⟩)
    (by intro p hp
        simp at hp
        subst hp
        exact ⟨_, _, rfl, by decide⟩)
    (by intro c hc
        simp [allItems, pageItems] at hc
        subst hc
        decide)
    (fun k => by simp)

end SlackUtils

namespace SlackUtils

/-- C7: the scheduler entry point `get_channel_id` resolves with a
deadline of `clock 0 + 10` when `use_async_lookup` is false and
`clock 0 + 180` (3 * 60) when it is true, on the requested name with its
leading '#' and '@' characters stripped: the stripped name never starts
with '#' or '@', and what was dropped is exactly a leading run of '#'
and '@' characters. -/
theorem claim_C7_scheduler_deadline_and_strip
    (name : String) (clock : Nat → Nat) (env : String → List FetchOutcome) :
    (get_channel_id name false clock env
      = resolveLoop (strip_channel_name name) clock (clock 0 + 10) env
          LIST_TYPES 1 none false "") ∧
    (get_channel_id name true clock env
      = resolveLoop (strip_channel_name name) clock (clock 0 + 180) env
          LIST_TYPES 1 none false "") ∧
    (∀ ch, (strip_channel_name name).data.head? = some ch →
      ch ≠ '#' ∧ ch ≠ '@') ∧
    (∃ dropped, name.data = dropped ++ (strip_channel_name name).data ∧
      ∀ ch ∈ dropped, ch = '#' ∨ ch = '@') := by
  refine ⟨rfl, rfl, ?_, ?_⟩
  · intro ch h
    have hp := dropWhile_head_not
      (fun ch => decide (ch ∈ strip_channel_chars.data)) name.data ch h
    have hmem : ch ∉ strip_channel_chars.data := by simpa using hp
    have hdata : strip_channel_chars.data = ['@', '#'] := rfl
    rw [hdata] at hmem
    simp at hmem
    exact ⟨hmem.2, hmem.1⟩
  · refine ⟨name.data.takeWhile (fun ch => decide (ch ∈ strip_channel_chars.data)),
      ?_, ?_⟩
    · exact (List.takeWhile_append_dropWhile
        (fun ch => decide (ch ∈ strip_channel_chars.data)) name.data).symm
    · intro ch hch
      have hp := List.mem_takeWhile_imp hch
      have hmem : ch ∈ strip_channel_chars.data := by simpa using hp
      have hdata : strip_channel_chars.data = ['@', '#'] := rfl
      rw [hdata] at hmem
      simp at hmem
      exact hmem.symm.imp id id

/-- Witness for C7 at a concrete input: "#@general" with both lookup
modes and an empty network. -/
theorem claim_C7_scheduler_deadline_and_strip_witness :
    get_channel_id "#@general" true (fun _ => 7) (fun _ => [])
      = resolveLoop (strip_channel_name "#@general") (fun _ => 7) (7 + 180)
          (fun _ => []) LIST_TYPES 1 none false "" :=
  (claim_C7_scheduler_deadline_and_strip "#@general" (fun _ => 7)
    (fun _ => [])).2.1

end SlackUtils

namespace NotificationsManager

/-- C8, as the claim states it, is refuted at a concrete input: passing
both a project (id 5) and an organization (id 7) — with a user id as
well — does not raise; `_get_scope` silently resolves to the project
scope. -/
theorem claim_C8_counterexample :
    _get_scope (some 1) (some ⟨5⟩) (some ⟨7⟩)
      = Except.ok (NotificationScopeType.PROJECT, 5) := rfl

/-- C8 amended: passing zero truthy entities raises the caller-contract
error (`_get_scope` with no project, no organization and a missing or
zero user id; `_get_target` with neither user nor team), but passing
more than one entity is silently resolved by precedence — project over
organization over user for the scope, user over team for the target —
rather than rejected. -/
theorem claim_C8_amended_precedence
    : (_get_scope none none none
        = Except.error "scope must be either user, organization, or project") ∧
      (_get_scope (some 0) none none
        = Except.error "scope must be either user, organization, or project") ∧
      (∀ (u : Option Nat) (p : Project) (o : Option Organization),
        _get_scope u (some p) o = Except.ok (NotificationScopeType.PROJECT, p.id)) ∧
      (∀ (u : Option Nat) (o : Organization),
        _get_scope u none (some o)
          = Except.ok (NotificationScopeType.ORGANIZATION, o.id)) ∧
      (∀ uid : Nat, uid ≠ 0 →
        _get_scope (some uid) none none
          = Except.ok (NotificationScopeType.USER, uid)) ∧
      (_get_target none none
        = Except.error "target must be either a user or a team") ∧
      (∀ (a : Nat) (t : Option Nat), _get_target (some a) t = Except.ok a) ∧
      (∀ a : Nat, _get_target none (some a) = Except.ok a) := by
  refine ⟨rfl, rfl, fun u p o => rfl, fun u o => rfl, ?_, rfl, fun a t => rfl,
    fun a => rfl⟩
  intro uid huid
  simp [_get_scope, huid]

/-- Witness for the amended C8: a lone nonzero user id resolves to the
user scope. -/
theorem claim_C8_amended_precedence_witness :
    _get_scope (some 3) none none
      = Except.ok (NotificationScopeType.USER, 3) :=
  claim_C8_amended_precedence.2.2.2.2.1 3 (by decide)

end NotificationsManager

namespace SlackUtils

/-- C9: `send_incident_alert_notification` never raises to the caller:
for every lookup outcome and post outcome the result is a normal return
(`Except.ok`); a removed integration returns silently and a transport
failure while posting is caught (and logged). -/
theorem claim_C9_send_never_raises :
    ∀ (integration : Option Integration) (postError : Option String),
      (∃ o, send_incident_alert_notification integration postError
        = Except.ok o) ∧
      send_incident_alert_notification none postError
        = Except.ok SendOutcome.integrationRemoved ∧
      (∀ (i : Integration) (e : String),
        send_incident_alert_notification (some i) (some e)
          = Except.ok (SendOutcome.postFailed e)) := by
  intro integration postError
  refine ⟨?_, rfl, fun i e => rfl⟩
  cases integration with
  | none => exact ⟨SendOutcome.integrationRemoved, rfl⟩
  | some i =>
    cases postError with
    | none => exact ⟨SendOutcome.posted, rfl⟩
    | some e => exact ⟨SendOutcome.postFailed e, rfl⟩

end SlackUtils
